import Mathlib

/-!
Shallow embedding of `plugins/Library.py` (Advance-AutoFilter-bot): the
search orchestrator, result pagination, the download/upload transfer
engine with its progress throttling, the archival logger, the per-user
concurrency gate and the download-selection handler, together with
theorems settling the specification claims about them.
-/

set_option maxHeartbeats 1000000

namespace Library

/-! ### Catalog records (Python dicts) and the search orchestrator

A search result is a Python dict; we embed a dict as an association list
from keys to string values. `validate_result` mirrors the inner helper of
`libgen_search` (lines 37-40): a result is accepted when it carries all of
ID / Author / Title / Direct_Download_Link.
-/

/-- A Python dict, embedded as an association list from keys to values. -/
abbrev PyDict := List (String × String)

/-- `key in result` for our embedded dicts. -/
def hasKey (r : PyDict) (k : String) : Bool :=
  (r.lookup k).isSome

/-- The required keys of `validate_result` (Library.py line 39). -/
def required_keys : List String :=
  ["ID", "Author", "Title", "Direct_Download_Link"]

/-- `validate_result` (Library.py lines 37-40): all required keys present.
The `isinstance(result, dict)` conjunct is carried by the `PyDict` type. -/
def validate_result (r : PyDict) : Bool :=
  required_keys.all (hasKey r)

/-- `result['ID']` after validation guarantees the key is present; on the
embedded dict we read the ID with a default that validation rules out. -/
def getID (r : PyDict) : String :=
  (r.lookup "ID").getD ""

/-- The dedup loop of `libgen_search` (lines 69-75): walk `valid_results`
keeping the first occurrence of each ID, tracking `seen_ids`. -/
def dedupById (seen : List String) : List PyDict → List PyDict
  | [] => []
  | r :: rs =>
    if seen.contains (getID r) then dedupById seen rs
    else r :: dedupById (getID r :: seen) rs

/-- `unique_results` as computed from `valid_results` (lines 69-77). -/
def uniqueById (rs : List PyDict) : List PyDict :=
  dedupById [] rs

/-- Exceptions that the Python code distinguishes.  Every constructor
models a subclass of `Exception` (so a bare `except Exception` catches
all of them); `floodWait` is pyrogram's rate-limit signal. -/
inductive PyExc where
  | jsonDecode : PyExc
  | floodWait (value : Nat) : PyExc
  | generic (msg : String) : PyExc
  deriving DecidableEq, Repr

/-- `except JSONDecodeError` applies exactly to these exceptions. -/
def isJSONDecode : PyExc → Bool
  | .jsonDecode => true
  | _ => false

/-- `except FloodWait` applies exactly to these exceptions. -/
def isFloodWait : PyExc → Bool
  | .floodWait _ => true
  | _ => false

/-- `except Exception` catches every modelled exception. -/
def isExceptionExc : PyExc → Bool := fun _ => true

/-- Outcome of calling one backend search method: it may return a list of
dicts, return a value that is not a list (line 53 guards this), or raise. -/
inductive MethodResult where
  | ok (results : List PyDict)
  | notList
  | raised (e : PyExc)
  deriving Repr

/-- Outcomes of the backend calls made by one `libgen_search` invocation:
the three strategies of `search_methods` (lines 44-48) in order, plus the
`search_title` fallback of the FloodWait handler (line 83). -/
structure Backend where
  methods : List MethodResult
  fallback : MethodResult

/-- One backend call, in the exception monad. -/
def methodCall : MethodResult → Except PyExc (Option (List PyDict))
  | .ok rs => .ok (some rs)
  | .notList => .ok none
  | .raised e => .error e

/-- `try body except P1: h1 except P2: h2`, matching handlers in order. -/
def catch2 {α : Type} (body : Except PyExc α) (p1 : PyExc → Bool) (h1 : α)
    (p2 : PyExc → Bool) (h2 : α) : Except PyExc α :=
  match body with
  | .ok a => .ok a
  | .error e => if p1 e then .ok h1 else if p2 e then .ok h2 else .error e

/-- Body of one iteration of the strategy loop (lines 51-62): call the
method, skip non-list results with a warning, and append the validated
results to `valid_results`. -/
def stepBody (acc : List PyDict) (mr : MethodResult) : Except PyExc (List PyDict) :=
  match methodCall mr with
  | .error e => .error e
  | .ok none => .ok acc
  | .ok (some rs) => .ok (acc ++ rs.filter validate_result)

/-- One iteration of the strategy loop with its two handlers
(lines 64-67): `except JSONDecodeError` then `except Exception`, both of
which log and continue with `valid_results` unchanged. -/
def loopStep (acc : List PyDict) (mr : MethodResult) : Except PyExc (List PyDict) :=
  catch2 (stepBody acc mr) isJSONDecode acc isExceptionExc acc

/-- The body of the outer `try` of `libgen_search` (lines 42-77): run the
strategy loop, then dedup by ID. -/
def searchBody (b : Backend) : Except PyExc (List PyDict) := do
  let valid ← b.methods.foldlM loopStep []
  pure (uniqueById valid)

/-- The FloodWait handler's fallback (lines 81-87): basic title search,
validated but not deduplicated; any error yields the empty list. -/
def fallbackRun (b : Backend) : Except PyExc (List PyDict) :=
  match methodCall b.fallback with
  | .ok (some rs) => .ok (rs.filter validate_result)
  | .ok none => .ok []
  | .error _ => .ok []

/-- `libgen_search` (lines 33-91): outer try with `except FloodWait`
(sleep, then fallback) and `except Exception` (return `[]`). -/
def libgen_search (b : Backend) : Except PyExc (List PyDict) :=
  match searchBody b with
  | .ok l => .ok l
  | .error e =>
    if isFloodWait e then fallbackRun b
    else if isExceptionExc e then .ok []
    else .error e

/-- What one loop iteration adds to `valid_results`, seen as a pure
step (errors and non-list results contribute nothing). -/
def collectStep (acc : List PyDict) (mr : MethodResult) : List PyDict :=
  match mr with
  | .ok rs => acc ++ rs.filter validate_result
  | _ => acc

/-- The value of `valid_results` after the strategy loop, as a pure fold. -/
def validResults (b : Backend) : List PyDict :=
  b.methods.foldl collectStep []

/-! ### Pagination (`create_search_buttons`, lines 93-100) -/

/-- `RESULTS_PER_PAGE` (line 27). -/
def RESULTS_PER_PAGE : Nat := 10

/-- `total_pages = (total + RESULTS_PER_PAGE - 1) // RESULTS_PER_PAGE`
(line 96). -/
def total_pages (total : Nat) : Nat :=
  (total + RESULTS_PER_PAGE - 1) / RESULTS_PER_PAGE

/-- `page_results = results[start_idx:end_idx]` with
`start_idx = (page - 1) * RESULTS_PER_PAGE` (lines 98-100). -/
def page_results {α : Type} (results : List α) (page : Nat) : List α :=
  ((results.drop ((page - 1) * RESULTS_PER_PAGE)).take RESULTS_PER_PAGE)

/-! ### The transfer engine (`download_libgen_file`, lines 127-208)

We embed the download as an interpreter over a scenario describing what
the network and the filesystem do: each of the (up to 3) transport
attempts either raises a transport error or yields a response with a
status, an advertised content length (`0` models an absent header, as in
`int(headers.get('content-length', 0)) or None`), and a chunk stream.
Each chunk records its byte size, the wall-clock time at which it is
processed, and how many initial write attempts fail for it.  Time is an
integer number of seconds (the code compares `datetime` differences
against 2s / 10s / 15s thresholds with strict `>`).
-/

/-- Python's `round` on the exact rational `num / den`
(round half to even), used for the integer percentages. -/
def pyRound (num den : Nat) : Nat :=
  let q := num / den
  let r := num % den
  if 2 * r < den then q
  else if den < 2 * r then q + 1
  else if q % 2 = 0 then q else q + 1

/-- The distinct message texts the transfer engine renders.  Two messages
are equal iff their rendered texts are equal: the format strings of the
four branches differ pairwise and are injective in their arguments. -/
inductive Msg where
  /-- the size-limit message of lines 145-152, carrying the direct link -/
  | sizeLimitExceeded (sizeMB : Nat) (url : String)
  /-- `"⬇️ Downloading file... ({percent}%)"` (line 178) -/
  | downloading (percent : Int)
  /-- `"⬇️ Downloading large file... ({cur}MB/{tot}MB)"` (line 195) -/
  | downloadingLarge (curMB totMB : Nat)
  /-- `"📤 Uploading... ({percent}%)"` (line 219) -/
  | uploading (percent : Int)
  /-- `"📤 Uploading {tot}MB ({cur}MB sent)..."` (line 226) -/
  | uploadingLarge (totMB curMB : Nat)
  deriving DecidableEq, Repr

/-- Observable events of a transfer. -/
inductive Ev where
  /-- `progress_msg.edit(...)`: a message text pushed to the sink -/
  | editMsg (m : Msg)
  /-- a successful chunk write of `size` bytes to the local file -/
  | write (size : Nat)
  /-- `asyncio.sleep(secs)` -/
  | sleep (secs : Nat)
  deriving DecidableEq, Repr

/-- How a transfer ends when it does not succeed. -/
inductive DlError where
  /-- `Exception(f"Download failed with status {status}")` (line 139) -/
  | httpStatus (code : Nat)
  /-- `Exception("FILE_TOO_LARGE")` (line 153) -/
  | fileTooLarge
  /-- the final chunk-write error re-raised at line 169 -/
  | writeError
  /-- `aiohttp.ClientError` / `asyncio.TimeoutError` (line 202) -/
  | transport
  deriving DecidableEq, Repr

/-- One chunk of the response body stream. -/
structure Chunk where
  size : Nat
  time : Int
  writeFails : Nat
  deriving Repr

/-- What one transport attempt encounters. -/
inductive AttemptOutcome where
  /-- the GET or the read raises `ClientError` / `TimeoutError` -/
  | transportError
  /-- a response with status, content length (0 = absent) and body -/
  | response (status : Nat) (contentLength : Nat) (chunks : List Chunk)

/-- The mutable download state threaded through one call of
`download_libgen_file`: `last_percent` (init `-1`), `last_message`
(init `""`, modelled as `none`), the `LAST_PROGRESS_UPDATE[user_id]`
pair, and the `downloaded` byte counter. -/
structure DlState where
  lastPercent : Int
  lastMessage : Option Msg
  lastUpdPercent : Int
  lastUpdTime : Int
  downloaded : Nat

/-- The chunk-write retry loop (lines 163-170), iterating over the
remaining values of `write_attempt` from `range(3)`: a write at attempt
`a` succeeds iff `failCount ≤ a`; on failure at the last attempt the
error is re-raised, otherwise the loop sleeps 1 second and retries. -/
def writeChunkGo (size failCount : Nat) : List Nat → List Ev × Bool
  | [] => ([], false)
  | a :: rest =>
    if failCount ≤ a then ([Ev.write size], true)
    else if rest.isEmpty then ([], false)
    else
      let (evs, ok) := writeChunkGo size failCount rest
      (Ev.sleep 1 :: evs, ok)

/-- `for write_attempt in range(3): ...` (lines 163-170). -/
def writeChunk (size failCount : Nat) : List Ev × Bool :=
  writeChunkGo size failCount [0, 1, 2]

/-- The progress update after one chunk (lines 174-198).  `total` is
`total_size` (`none` when the header was absent); `t` is
`datetime.now()`.  Note the `elif` branch of line 193 is guarded by the
negation of line 180's condition, which already rules out
`t - last > 2`, so its `> 10` test can never hold. -/
def progressStep (total : Option Nat) (st : DlState) (t : Int) : List Ev × DlState :=
  match total with
  | none => ([], st)
  | some n =>
    let percent : Int := (pyRound (st.downloaded * 100) n : Nat)
    let message := Msg.downloading percent
    if (percent ≠ st.lastPercent ∧ percent - st.lastPercent ≥ 1) ∨ (t - st.lastUpdTime > 2) then
      if some message ≠ st.lastMessage then
        ([Ev.editMsg message],
         { st with lastPercent := percent, lastMessage := some message,
                   lastUpdPercent := percent, lastUpdTime := t })
      else ([], st)
    else if n > 30 * 1024 * 1024 ∧ t - st.lastUpdTime > 10 then
      ([Ev.editMsg (Msg.downloadingLarge (st.downloaded / (1024 * 1024)) (n / (1024 * 1024)))],
       { st with lastUpdPercent := percent, lastUpdTime := t })
    else ([], st)

/-- The chunk loop (lines 158-198): skip empty chunks, write with retry
(aborting the attempt when the write retries are exhausted), bump
`downloaded`, then run the progress update. -/
def processChunks (total : Option Nat) (st : DlState) :
    List Chunk → List Ev × DlState × Bool
  | [] => ([], st, true)
  | c :: cs =>
    if c.size = 0 then processChunks total st cs
    else
      let (wevs, ok) := writeChunk c.size c.writeFails
      if ok then
        let st1 := { st with downloaded := st.downloaded + c.size }
        let (pevs, st2) := progressStep total st1 c.time
        let (evs, st3, success) := processChunks total st2 cs
        (wevs ++ pevs ++ evs, st3, success)
      else (wevs, st, false)

/-- One transport attempt (lines 136-200): non-200 status raises a plain
`Exception`; an advertised content length over 50MB renders the
size-limit message with the direct link and raises
`Exception("FILE_TOO_LARGE")`; otherwise the body is streamed. -/
def runAttempt (url : String) (st : DlState) :
    AttemptOutcome → List Ev × DlState × Except DlError Unit
  | .transportError => ([], st, .error .transport)
  | .response status contentLength chunks =>
    if status ≠ 200 then ([], st, .error (.httpStatus status))
    else
      let total : Option Nat := if contentLength = 0 then none else some contentLength
      if contentLength > 50 * 1024 * 1024 then
        ([Ev.editMsg (Msg.sizeLimitExceeded (pyRound contentLength (1024 * 1024)) url)],
         st, .error .fileTooLarge)
      else
        let (evs, st', ok) := processChunks total { st with downloaded := 0 } chunks
        (evs, st', if ok then .ok () else .error .writeError)

/-- The transport-retry loop (lines 135-208) over the remaining values of
`attempt` from `range(max_retries)`: only `ClientError` / `TimeoutError`
is retried (with a 5-second backoff), and only while attempts remain;
every other exception propagates immediately. -/
def runDownloadGo (url : String) (f : Nat → AttemptOutcome) :
    DlState → List Nat → List Ev × DlState × Except DlError Unit
  | st, [] => ([], st, .ok ())
  | st, i :: rest =>
    let (evs, st', res) := runAttempt url st (f i)
    match res with
    | .ok _ => (evs, st', .ok ())
    | .error .transport =>
      if rest.isEmpty then (evs, st', .error .transport)
      else
        let (evs2, st'', r) := runDownloadGo url f st' rest
        (evs ++ Ev.sleep 5 :: evs2, st'', r)
    | .error e => (evs, st', .error e)

/-- `download_libgen_file` (lines 127-208) as a function of the attempt
scenario `f` and the entry progress state. -/
def download_libgen_file (url : String) (f : Nat → AttemptOutcome) (st : DlState) :
    List Ev × DlState × Except DlError Unit :=
  runDownloadGo url f st [0, 1, 2]

/-- The state a fresh call starts from (lines 129-130), with the entry
`LAST_PROGRESS_UPDATE[user_id]` pair as parameters. -/
def initDlState (lastUpdPercent lastUpdTime : Int) : DlState :=
  { lastPercent := -1, lastMessage := none,
    lastUpdPercent := lastUpdPercent, lastUpdTime := lastUpdTime, downloaded := 0 }

/-- The message texts pushed to the progress sink, in order. -/
def edits (evs : List Ev) : List Msg :=
  evs.filterMap fun e =>
    match e with
    | .editMsg m => some m
    | _ => none

/-! ### The delivery engine's progress callback
(`upload_to_telegram.progress`, lines 216-251)

The transport invokes `progress(current, total)` repeatedly; we model a
run as a fold of the callback over a list of `(current, time)` pairs for
a fixed `total`.
-/

/-- The state captured by the callback's closure: `last_percent` (init
`-1`), `last_message` (init `""`), and `LAST_PROGRESS_UPDATE[user_id]`. -/
structure UpState where
  lastPercent : Int
  lastMessage : Option Msg
  lastUpdPercent : Int
  lastUpdTime : Int

/-- One invocation of the upload progress callback (lines 216-251).
For files over 30MB the MB-based branch applies (update every 5MB or
after 15 seconds); otherwise the percent branch applies (percent moved
by at least 1, or 2 seconds elapsed).  Neither branch compares the new
text against `last_message` before editing.  `last_mb` uses Python's
floor division (`Int.fdiv`). -/
def uploadProgress (total : Nat) (st : UpState) (current : Nat) (t : Int) :
    List Ev × UpState :=
  let percent : Int := (pyRound (current * 100) total : Nat)
  if total > 30 * 1024 * 1024 then
    let mbCurrent : Nat := current / 1024 / 1024
    let mbTotal : Nat := total / 1024 / 1024
    let message := Msg.uploadingLarge mbTotal mbCurrent
    let lastMb : Int := (((st.lastPercent * (total : Int)).fdiv 100).fdiv 1024).fdiv 1024
    if ((mbCurrent : Int) - lastMb ≥ 5) ∨ (t - st.lastUpdTime > 15) then
      ([Ev.editMsg message],
       { lastPercent := percent, lastMessage := some message,
         lastUpdPercent := percent, lastUpdTime := t })
    else ([], st)
  else
    let message := Msg.uploading percent
    if (percent ≠ st.lastPercent ∧ percent - st.lastPercent ≥ 1) ∨ (t - st.lastUpdTime > 2) then
      ([Ev.editMsg message],
       { lastPercent := percent, lastMessage := some message,
         lastUpdPercent := percent, lastUpdTime := t })
    else ([], st)

/-- A sequence of callback invocations, threading the closure state. -/
def uploadRun (total : Nat) (st : UpState) : List (Nat × Int) → List Ev × UpState
  | [] => ([], st)
  | (current, t) :: rest =>
    let (evs, st') := uploadProgress total st current t
    let (evs2, st'') := uploadRun total st' rest
    (evs ++ evs2, st'')

/-- The state the callback's closure starts from (lines 212-213), with
the entry `LAST_PROGRESS_UPDATE[user_id]` pair as parameters. -/
def initUpState (lastUpdPercent lastUpdTime : Int) : UpState :=
  { lastPercent := -1, lastMessage := none,
    lastUpdPercent := lastUpdPercent, lastUpdTime := lastUpdTime }

/-! ### The archival logger (`log_download`, lines 285-330) -/

/-- Python's `str.strip()` over the characters of a string. -/
def pyStrip (s : List Char) : List Char :=
  ((s.dropWhile Char.isWhitespace).reverse.dropWhile Char.isWhitespace).reverse

/-- `clean_title = str(book.get('Title', '')).strip().lower().strip()`
(lines 304-305), over the title's characters. -/
def normalizeTitle (raw : List Char) : List Char :=
  pyStrip ((pyStrip raw).map Char.toLower)

/-- The externally visible archival actions of one `log_download` call. -/
inductive ArchAct where
  /-- the unconditional mirror to `LOG_CHANNEL` (lines 289-301) -/
  | sendLog
  /-- forwarding the artifact to `FILE_STORE_CHANNEL[0]` (lines 318-321) -/
  | forward (title : List Char)
  /-- `db.add_file_title(clean_title)` (line 324) -/
  | insertTitle (title : List Char)
  deriving DecidableEq, Repr

/-- `log_download` on the happy path, as a function of the title store
(the set of titles for which `db.is_title_exists` answers true) and the
book's raw title: always mirror to the log channel; skip empty or
`"unknown"` titles; forward and record only titles absent from the
store. -/
def log_download (store : List (List Char)) (rawTitle : List Char) :
    List ArchAct × List (List Char) :=
  let clean := normalizeTitle rawTitle
  if clean = [] ∨ clean = "unknown".data then ([ArchAct.sendLog], store)
  else if store.contains clean then ([ArchAct.sendLog], store)
  else ([ArchAct.sendLog, ArchAct.forward clean, ArchAct.insertTitle clean],
        clean :: store)

/-- A sequence of deliveries, threading the title store. -/
def runDeliveries (store : List (List Char)) :
    List (List Char) → List ArchAct × List (List Char)
  | [] => ([], store)
  | b :: bs =>
    let (acts, store') := log_download store b
    let (acts2, store'') := runDeliveries store' bs
    (acts ++ acts2, store'')

/-- How many times a given title is forwarded to the archival store. -/
def forwardCount (acts : List ArchAct) (t : List Char) : Nat :=
  acts.count (ArchAct.forward t)

/-! ### The per-user concurrency gate
(`USER_LOCKS`, line 24; `handle_download_callback`, lines 414-418)

`async with USER_LOCKS[user_id]` holds one `asyncio.Lock` per user for
the full download + upload + lifecycle cycle.  We model the system as a
transition relation over task phases and lock ownership: a task (one
selection callback) is `idle` before its callback fires, `waiting` while
blocked on its user's lock, `critical` while it holds the lock and runs
the cycle, and `done` after releasing.  `users t` is the user that task
`t`'s callback came from.
-/

/-- Phase of one selection-callback task. -/
inductive Phase where
  | idle
  | waiting
  | critical
  | done
  deriving DecidableEq, Repr

/-- Pointwise update of a map. -/
def updF {α : Type} (f : Nat → α) (k : Nat) (v : α) : Nat → α :=
  fun x => if x = k then v else f x

lemma updF_apply {α : Type} (f : Nat → α) (k : Nat) (v : α) (x : Nat) :
    updF f k v x = if x = k then v else f x := rfl

/-- State of the gate: each task's phase, and for each user the task (if
any) currently holding that user's lock. -/
structure GateState where
  phase : Nat → Phase
  owner : Nat → Option Nat

/-- All tasks idle, every per-user lock free (a fresh `defaultdict`
entry is an unlocked `asyncio.Lock`). -/
def gateInit : GateState :=
  { phase := fun _ => Phase.idle, owner := fun _ => none }

/-- Interleaved steps of the selection handler under the cooperative
scheduler: a callback fires (`select`), a waiting task acquires its
user's lock when it is free (`acquire`), and a task in its cycle
finishes and releases (`release`). -/
inductive GateStep (users : Nat → Nat) : GateState → GateState → Prop where
  | select (s : GateState) (t : Nat) :
      s.phase t = Phase.idle →
      GateStep users s ⟨updF s.phase t Phase.waiting, s.owner⟩
  | acquire (s : GateState) (t : Nat) :
      s.phase t = Phase.waiting →
      s.owner (users t) = none →
      GateStep users s ⟨updF s.phase t Phase.critical, updF s.owner (users t) (some t)⟩
  | release (s : GateState) (t : Nat) :
      s.phase t = Phase.critical →
      GateStep users s ⟨updF s.phase t Phase.done, updF s.owner (users t) none⟩

/-- States reachable from the initial state. -/
inductive GateReach (users : Nat → Nat) : GateState → Prop where
  | init : GateReach users gateInit
  | step {s s' : GateState} : GateReach users s → GateStep users s s' → GateReach users s'

/-! ### Selection, destination path and bounds check
(`handle_download_callback`, lines 420-448)
-/

/-- Python's `lst[i]` with negative indexing: a negative index counts
from the end, an out-of-range index raises `IndexError` (`none`). -/
def pyIndex {α : Type} (l : List α) (i : Int) : Option α :=
  if 0 ≤ i then l.get? i.toNat
  else if (-i).toNat ≤ l.length then l.get? (l.length - (-i).toNat)
  else none

/-- Outcome of the selection step of the handler. -/
inductive SelOutcome (α : Type) where
  /-- `index >= len(results)`: answer "Invalid selection!" and return -/
  | invalidSelection
  /-- `results[index]` raised `IndexError` (caught by the outer handler) -/
  | indexError
  /-- `book = results[index]` -/
  | selected (book : α)
  deriving DecidableEq, Repr

/-- The bounds check and indexing of lines 430-434: only `index >=
len(results)` is rejected; any other index reaches `results[index]`. -/
def select_book {α : Type} (results : List α) (index : Int) : SelOutcome α :=
  if index ≥ (results.length : Int) then SelOutcome.invalidSelection
  else
    match pyIndex results index with
    | some b => SelOutcome.selected b
    | none => SelOutcome.indexError

/-- `clean_title = "".join(c if c.isalnum() else "_" for c in book['Title'])`
(line 444), over the title's characters. -/
def clean_title_chars (t : List Char) : List Char :=
  t.map fun c => if c.isAlphanum then c else '_'

/-- `temp_path = f"downloads/{clean_title[:50]}.{file_ext}"`
(lines 446-447). -/
def temp_path (title ext : List Char) : List Char :=
  "downloads/".toList ++ (clean_title_chars title).take 50 ++ '.' :: ext

/-- The data of one download request that determines its destination
path, together with the requesting user. -/
structure DlRequest where
  userId : Nat
  title : List Char
  ext : List Char
  deriving DecidableEq

/-- The destination path used by one request's lifecycle. -/
def requestPath (r : DlRequest) : List Char :=
  temp_path r.title r.ext

/-! ## Theorems -/

/-! ### C3: pagination partitions the result set -/

lemma pages_flatten_take {α : Type} (R : List α) :
    ∀ n : Nat, ((List.range n).map (fun k => page_results R (k + 1))).flatten
      = R.take (n * RESULTS_PER_PAGE) := by
  intro n
  induction n with
  | zero => simp
  | succ n ih =>
    rw [List.range_succ, List.map_append, List.flatten_append, ih]
    simp only [List.map_cons, List.map_nil, List.flatten_cons, List.flatten_nil,
      List.append_nil, page_results, Nat.add_sub_cancel]
    rw [Nat.succ_mul, List.take_add]

lemma total_pages_mul_ge (total : Nat) :
    total ≤ total_pages total * RESULTS_PER_PAGE := by
  simp only [total_pages, RESULTS_PER_PAGE]
  omega

/-- C3: for every result set `R`, the pages `1..total_pages` produced by
the pagination of `create_search_buttons` partition `R`: their
concatenation is `R` in order, the page lengths sum to `len R`, and the
`i`-th record of page `p` is the record of `R` at global index
`(p-1)*10 + i`, so distinct pages draw from disjoint index ranges. -/
theorem c3_pagination_partitions {α : Type} (R : List α) :
    ((List.range (total_pages R.length)).map (fun k => page_results R (k + 1))).flatten = R
    ∧ ((List.range (total_pages R.length)).map
        (fun k => (page_results R (k + 1)).length)).sum = R.length
    ∧ (∀ p i, i < RESULTS_PER_PAGE →
        (page_results R p)[i]? = R[(p - 1) * RESULTS_PER_PAGE + i]?) := by
  have hflat : ((List.range (total_pages R.length)).map
      (fun k => page_results R (k + 1))).flatten = R := by
    rw [pages_flatten_take]
    exact List.take_of_length_le (total_pages_mul_ge R.length)
  refine ⟨hflat, ?_, ?_⟩
  · have := congrArg List.length hflat
    rwa [List.length_flatten, List.map_map] at this
  · intro p i hi
    simp only [page_results, List.getElem?_take, hi, if_pos, List.getElem?_drop]

/-- Witness for C3 at a concrete 12-element result set and page 2,
checking the third conjunct at a concrete in-page index. -/
theorem c3_pagination_partitions_witness :
    (page_results [0, 1, 2, 3, 4, 5, 6, 7, 8, 9, 10, 11] 2)[1]?
      = [0, 1, 2, 3, 4, 5, 6, 7, 8, 9, 10, 11][(2 - 1) * RESULTS_PER_PAGE + 1]? :=
  (c3_pagination_partitions [0, 1, 2, 3, 4, 5, 6, 7, 8, 9, 10, 11]).2.2 2 1 (by decide)

/-! ### C10: the bounds check lets negative indices through -/

/-- C10: in `handle_download_callback`, the check `index >= len(results)`
rejects only too-large indices; every negative index `i` with `|i| ≤
len(results)` passes the check and `results[index]` selects the record at
position `len(results) - |i|`, counted from the end of the cached result
sequence, instead of reporting an invalid selection. -/
theorem c10_negative_index_selects_from_end {α : Type} (results : List α) (i : Int) :
    ((results.length : Int) ≤ i → select_book results i = SelOutcome.invalidSelection)
    ∧ (i < 0 → (-i).toNat ≤ results.length →
        ∃ b, select_book results i = SelOutcome.selected b
          ∧ results.get? (results.length - (-i).toNat) = some b) := by
  constructor
  · intro hge
    simp only [select_book, ge_iff_le, hge, if_pos]
  · intro hneg hle
    have hidx : results.length - (-i).toNat < results.length := by omega
    have hget := List.get?_eq_get hidx
    refine ⟨results.get ⟨results.length - (-i).toNat, hidx⟩, ?_, hget⟩
    have h1 : ¬ i ≥ (results.length : Int) := by omega
    have h2 : ¬ (0 : Int) ≤ i := by omega
    simp only [select_book, ge_iff_le, pyIndex, h1, h2, hle, if_neg, if_pos,
      if_false, if_true, hget]

/-- Witness for C10: in a three-record result set, index `-1` passes the
bounds check and selects the last record. -/
theorem c10_negative_index_selects_from_end_witness :
    ∃ b, select_book [10, 20, 30] (-1) = SelOutcome.selected b
      ∧ [10, 20, 30].get? ([10, 20, 30].length - (-(-1 : Int)).toNat) = some b :=
  (c10_negative_index_selects_from_end [10, 20, 30] (-1)).2 (by decide) (by decide)

/-! ### C8 and C4: the search orchestrator -/

lemma loopStep_eq (acc : List PyDict) (mr : MethodResult) :
    loopStep acc mr = Except.ok (collectStep acc mr) := by
  cases mr <;>
    simp [loopStep, catch2, stepBody, methodCall, collectStep, isJSONDecode, isExceptionExc]

lemma foldlM_loopStep (mrs : List MethodResult) :
    ∀ acc, List.foldlM loopStep acc mrs = Except.ok (mrs.foldl collectStep acc) := by
  induction mrs with
  | nil => intro acc; rfl
  | cons mr mrs ih =>
    intro acc
    rw [List.foldlM_cons, loopStep_eq]
    simpa using ih (collectStep acc mr)

/-- The outer try body never raises: the whole search reduces to the
dedup of the validated concatenation. -/
lemma libgen_search_eq (b : Backend) :
    libgen_search b = Except.ok (uniqueById (validResults b)) := by
  have hbody : searchBody b = Except.ok (uniqueById (validResults b)) := by
    simp only [searchBody, validResults, foldlM_loopStep]
    rfl
  simp only [libgen_search, hbody]

/-- C8: for every combination of backend behaviours — malformed
(non-list) responses, decode errors, generic exceptions or a rate-limit
signal from any strategy, and any behaviour of the fallback strategy —
`libgen_search` raises nothing: it returns a (possibly empty) list of
records, and the fallback path itself can only return a list as well. -/
theorem c8_search_never_raises (b : Backend) :
    (∃ l, libgen_search b = Except.ok l) ∧ (∃ l, fallbackRun b = Except.ok l) := by
  refine ⟨⟨uniqueById (validResults b), libgen_search_eq b⟩, ?_⟩
  unfold fallbackRun
  cases h : methodCall b.fallback with
  | ok o => cases o <;> exact ⟨_, rfl⟩
  | error e => exact ⟨_, rfl⟩

lemma dedupById_cons (seen : List String) (r : PyDict) (rs : List PyDict) :
    dedupById seen (r :: rs) =
      if getID r ∈ seen then dedupById seen rs
      else r :: dedupById (getID r :: seen) rs := by
  by_cases h : getID r ∈ seen
  · rw [if_pos h, dedupById, if_pos (by simpa using h)]
  · rw [if_neg h, dedupById, if_neg (by simpa using h)]

lemma dedupById_sublist (rs : List PyDict) :
    ∀ seen, (dedupById seen rs).Sublist rs := by
  induction rs with
  | nil => intro seen; simp [dedupById]
  | cons r rs ih =>
    intro seen
    rw [dedupById_cons]
    by_cases h : getID r ∈ seen
    · rw [if_pos h]; exact (ih seen).cons r
    · rw [if_neg h]; exact (ih (getID r :: seen)).cons₂ r

lemma dedupById_not_seen (rs : List PyDict) :
    ∀ seen, ∀ r' ∈ dedupById seen rs, getID r' ∉ seen := by
  induction rs with
  | nil => intro seen r' hr'; simp [dedupById] at hr'
  | cons r rs ih =>
    intro seen r' hr'
    rw [dedupById_cons] at hr'
    by_cases h : getID r ∈ seen
    · exact ih seen r' (by rwa [if_pos h] at hr')
    · rw [if_neg h] at hr'
      rcases List.mem_cons.mp hr' with rfl | hmem
      · exact h
      · have := ih (getID r :: seen) r' hmem
        exact fun hs => this (List.mem_cons_of_mem _ hs)

lemma dedupById_nodup (rs : List PyDict) :
    ∀ seen, ((dedupById seen rs).map getID).Nodup := by
  induction rs with
  | nil => intro seen; simp [dedupById]
  | cons r rs ih =>
    intro seen
    rw [dedupById_cons]
    by_cases h : getID r ∈ seen
    · rw [if_pos h]; exact ih seen
    · rw [if_neg h]
      simp only [List.map_cons, List.nodup_cons]
      refine ⟨?_, ih (getID r :: seen)⟩
      intro hmem
      rcases List.mem_map.mp hmem with ⟨r', hr', hid⟩
      exact dedupById_not_seen rs (getID r :: seen) r' hr' (by simp [hid])

lemma dedupById_covers (rs : List PyDict) :
    ∀ seen, ∀ r ∈ rs, getID r ∉ seen →
      ∃ r' ∈ dedupById seen rs, getID r' = getID r := by
  induction rs with
  | nil => intro seen r hr; simp at hr
  | cons r₀ rs ih =>
    intro seen r hr hns
    rw [dedupById_cons]
    by_cases h : getID r₀ ∈ seen
    · rw [if_pos h]
      rcases List.mem_cons.mp hr with rfl | hmem
      · exact absurd h hns
      · exact ih seen r hmem hns
    · rw [if_neg h]
      rcases List.mem_cons.mp hr with rfl | hmem
      · exact ⟨r, List.mem_cons_self _ _, rfl⟩
      · by_cases hid : getID r = getID r₀
        · exact ⟨r₀, List.mem_cons_self _ _, hid.symm⟩
        · have hns' : getID r ∉ getID r₀ :: seen := by
            intro hmem'
            rcases List.mem_cons.mp hmem' with he | hs
            · exact hid he
            · exact hns hs
          rcases ih (getID r₀ :: seen) r hmem hns' with ⟨r', hr', hid'⟩
          exact ⟨r', List.mem_cons_of_mem _ hr', hid'⟩

lemma dedupById_first (rs : List PyDict) :
    ∀ seen, ∀ r' ∈ dedupById seen rs,
      rs.find? (fun x => getID x == getID r') = some r' := by
  induction rs with
  | nil => intro seen r' hr'; simp [dedupById] at hr'
  | cons r rs ih =>
    intro seen r' hr'
    rw [dedupById_cons] at hr'
    by_cases h : getID r ∈ seen
    · rw [if_pos h] at hr'
      have hne : getID r ≠ getID r' := by
        intro he
        exact dedupById_not_seen rs seen r' hr' (he ▸ h)
      rw [List.find?_cons]
      have hbeq : (getID r == getID r') = false := by
        simpa using hne
      rw [hbeq]
      exact ih seen r' hr'
    · rw [if_neg h] at hr'
      rcases List.mem_cons.mp hr' with rfl | hmem
      · rw [List.find?_cons]
        simp
      · have hne : getID r ≠ getID r' := by
          intro he
          exact dedupById_not_seen rs (getID r :: seen) r' hmem (by simp [he])
        rw [List.find?_cons]
        have hbeq : (getID r == getID r') = false := by
          simpa using hne
        rw [hbeq]
        exact ih (getID r :: seen) r' hmem

lemma validResults_validated (b : Backend) :
    ∀ r ∈ validResults b, validate_result r = true := by
  unfold validResults
  suffices h : ∀ (mrs : List MethodResult) (acc : List PyDict),
      (∀ r ∈ acc, validate_result r = true) →
      ∀ r ∈ mrs.foldl collectStep acc, validate_result r = true by
    exact h b.methods [] (by simp)
  intro mrs
  induction mrs with
  | nil => intro acc hacc; simpa using hacc
  | cons mr mrs ih =>
    intro acc hacc
    refine ih (collectStep acc mr) ?_
    intro r hr
    cases mr with
    | ok rs =>
      rcases List.mem_append.mp hr with hl | hl
      · exact hacc r hl
      · exact (List.mem_filter.mp hl).2
    | notList => exact hacc r hr
    | raised e => exact hacc r hr

/-- C4: for every combination of strategy outputs, possibly with
overlapping identifiers, the orchestrator returns exactly the validated
concatenation deduplicated by ID: the IDs of the output are pairwise
distinct, the output is a stable (order-preserving) sublist of the
validated concatenation, every identifier that occurs survives, each
output record is the first occurrence of its identifier, and no output
record is missing any of ID / Author / Title / Direct_Download_Link. -/
theorem c4_dedup_first_occurrence (b : Backend) :
    ∃ l, libgen_search b = Except.ok l
      ∧ ((l.map getID).Nodup
        ∧ l.Sublist (validResults b)
        ∧ (∀ r ∈ validResults b, ∃ r' ∈ l, getID r' = getID r)
        ∧ (∀ r' ∈ l, (validResults b).find? (fun x => getID x == getID r') = some r')
        ∧ (∀ r ∈ l, validate_result r = true)) := by
  refine ⟨uniqueById (validResults b), libgen_search_eq b, ?_, ?_, ?_, ?_, ?_⟩
  · exact dedupById_nodup (validResults b) []
  · exact dedupById_sublist (validResults b) []
  · intro r hr
    exact dedupById_covers (validResults b) [] r hr (by simp)
  · exact dedupById_first (validResults b) []
  · intro r hr
    exact validResults_validated b r
      ((dedupById_sublist (validResults b) []).mem hr)

/-- A complete record with a given ID, for concrete scenarios. -/
def mkRec (id author : String) : PyDict :=
  [("ID", id), ("Author", author), ("Title", "t"), ("Direct_Download_Link", "d")]

/-- A backend whose strategies return overlapping IDs, one strategy
raising a decode error and one record missing its download link. -/
def exampleBackend : Backend :=
  { methods :=
      [MethodResult.ok [mkRec "1" "a", mkRec "2" "b"],
       MethodResult.raised PyExc.jsonDecode,
       MethodResult.ok [mkRec "2" "c", [("ID", "3")], mkRec "4" "d"]],
    fallback := MethodResult.ok [] }

/-- Witness for C4 at a backend with overlapping IDs, a raising strategy
and an invalid record. -/
theorem c4_dedup_first_occurrence_witness :
    ∃ l, libgen_search exampleBackend = Except.ok l
      ∧ (((l.map getID).Nodup
        ∧ l.Sublist (validResults exampleBackend)
        ∧ (∀ r ∈ validResults exampleBackend, ∃ r' ∈ l, getID r' = getID r)
        ∧ (∀ r' ∈ l,
            (validResults exampleBackend).find? (fun x => getID x == getID r') = some r')
        ∧ (∀ r ∈ l, validate_result r = true))) :=
  c4_dedup_first_occurrence exampleBackend

/-! ### C2: the 50MB size gate is terminal and writes nothing -/

/-- C2: whenever the first transport attempt yields a 200 response whose
advertised content length exceeds 50MB, `download_libgen_file` pushes
exactly one message — the size-limit text carrying the direct download
link — writes no file data, performs no retry backoff, and fails with
the distinguished `FILE_TOO_LARGE` reason (a plain `Exception`, which
the transport-retry clause does not catch). -/
theorem c2_size_gate_terminal (url : String) (f : Nat → AttemptOutcome) (st : DlState)
    (cl : Nat) (chunks : List Chunk)
    (h0 : f 0 = AttemptOutcome.response 200 cl chunks)
    (hbig : cl > 50 * 1024 * 1024) :
    download_libgen_file url f st =
      ([Ev.editMsg (Msg.sizeLimitExceeded (pyRound cl (1024 * 1024)) url)], st,
        Except.error DlError.fileTooLarge)
    ∧ (∀ e ∈ (download_libgen_file url f st).1, ∀ n, e ≠ Ev.write n)
    ∧ (∀ e ∈ (download_libgen_file url f st).1, ∀ s, e ≠ Ev.sleep s) := by
  have heq : download_libgen_file url f st =
      ([Ev.editMsg (Msg.sizeLimitExceeded (pyRound cl (1024 * 1024)) url)], st,
        Except.error DlError.fileTooLarge) := by
    simp only [download_libgen_file, runDownloadGo, runAttempt, h0]
    rw [if_neg (by decide), if_pos hbig]
  refine ⟨heq, ?_, ?_⟩
  · rw [heq]; intro e he n
    simp only [List.mem_singleton] at he
    simp [he]
  · rw [heq]; intro e he s
    simp only [List.mem_singleton] at he
    simp [he]

/-- Witness for C2 at a concrete 51MB response. -/
theorem c2_size_gate_terminal_witness :
    download_libgen_file "http://x/f" (fun _ => AttemptOutcome.response 200 (51 * 1024 * 1024) [])
        (initDlState 0 0) =
      ([Ev.editMsg (Msg.sizeLimitExceeded (pyRound (51 * 1024 * 1024) (1024 * 1024)) "http://x/f")],
        initDlState 0 0, Except.error DlError.fileTooLarge)
    ∧ (∀ e ∈ (download_libgen_file "http://x/f"
          (fun _ => AttemptOutcome.response 200 (51 * 1024 * 1024) []) (initDlState 0 0)).1,
        ∀ n, e ≠ Ev.write n)
    ∧ (∀ e ∈ (download_libgen_file "http://x/f"
          (fun _ => AttemptOutcome.response 200 (51 * 1024 * 1024) []) (initDlState 0 0)).1,
        ∀ s, e ≠ Ev.sleep s) :=
  c2_size_gate_terminal "http://x/f" (fun _ => AttemptOutcome.response 200 (51 * 1024 * 1024) [])
    (initDlState 0 0) (51 * 1024 * 1024) [] rfl (by norm_num)

/-! ### C5: per-chunk write retry -/

lemma writeChunk_le_two (size k : Nat) (hk : k ≤ 2) :
    writeChunk size k = (List.replicate k (Ev.sleep 1) ++ [Ev.write size], true) := by
  match k, hk with
  | 0, _ => rfl
  | 1, _ => rfl
  | 2, _ => rfl

lemma writeChunk_ge_three (size k : Nat) (hk : 3 ≤ k) :
    writeChunk size k = ([Ev.sleep 1, Ev.sleep 1], false) := by
  have h0 : ¬ k ≤ 0 := by omega
  have h1 : ¬ k ≤ 1 := by omega
  have h2 : ¬ k ≤ 2 := by omega
  simp [writeChunk, writeChunkGo, h0, h1, h2]

lemma processChunks_write_abort (total : Option Nat) (bad : Chunk) (rest : List Chunk)
    (hbad : 3 ≤ bad.writeFails) (hsz : bad.size ≠ 0) :
    ∀ (pre : List Chunk) (st : DlState), (∀ c ∈ pre, c.writeFails ≤ 2) →
      (processChunks total st (pre ++ bad :: rest)).2.2 = false := by
  intro pre
  induction pre with
  | nil =>
    intro st _
    simp only [List.nil_append, processChunks, hsz, if_neg,
      writeChunk_ge_three bad.size bad.writeFails hbad]
    simp
  | cons c pre ih =>
    intro st hpre
    by_cases hc : c.size = 0
    · simp only [List.cons_append, processChunks, hc, if_pos]
      exact ih st (fun x hx => hpre x (List.mem_cons_of_mem _ hx))
    · have hcw : c.writeFails ≤ 2 := hpre c (List.mem_cons_self _ _)
      simp only [List.cons_append, processChunks, hc, if_neg,
        writeChunk_le_two c.size c.writeFails hcw]
      exact ih _ (fun x hx => hpre x (List.mem_cons_of_mem _ hx))

/-- C5: each chunk write is attempted up to 3 times with a 1-second
pause between attempts — a chunk whose first `k ≤ 2` write attempts fail
still succeeds, after exactly `k` one-second sleeps — and only when all
3 attempts fail does the error propagate: the write error is then not
retried by the transport-retry loop, and the whole transfer fails. -/
theorem c5_chunk_write_retry :
    (∀ size k, k ≤ 2 →
      writeChunk size k = (List.replicate k (Ev.sleep 1) ++ [Ev.write size], true))
    ∧ (∀ size k, 3 ≤ k → writeChunk size k = ([Ev.sleep 1, Ev.sleep 1], false))
    ∧ (∀ (url : String) (f : Nat → AttemptOutcome) (st : DlState) (cl : Nat)
        (pre : List Chunk) (bad : Chunk) (rest : List Chunk),
        f 0 = AttemptOutcome.response 200 cl (pre ++ bad :: rest) →
        ¬ cl > 50 * 1024 * 1024 →
        (∀ c ∈ pre, c.writeFails ≤ 2) →
        bad.size ≠ 0 → 3 ≤ bad.writeFails →
        (download_libgen_file url f st).2.2 = Except.error DlError.writeError) := by
  refine ⟨writeChunk_le_two, writeChunk_ge_three, ?_⟩
  intro url f st cl pre bad rest h0 hcl hpre hsz hbad
  have habort := processChunks_write_abort (if cl = 0 then none else some cl) bad rest
    hbad hsz pre { st with downloaded := 0 } hpre
  rcases hpc : processChunks (if cl = 0 then none else some cl)
      { st with downloaded := 0 } (pre ++ bad :: rest) with ⟨evs, st', ok⟩
  rw [hpc] at habort
  simp only at habort
  subst habort
  have hatt : runAttempt url st (f 0) = (evs, st', Except.error DlError.writeError) := by
    rw [h0]
    simp only [runAttempt]
    rw [if_neg (by decide), if_neg hcl, hpc]
    simp
  simp only [download_libgen_file, runDownloadGo, hatt]

/-- Witness for C5: first chunk fails twice then writes; the second
chunk's writes fail three times and the transfer fails. -/
theorem c5_chunk_write_retry_witness :
    (writeChunk 7 2 = (List.replicate 2 (Ev.sleep 1) ++ [Ev.write 7], true))
    ∧ (download_libgen_file "u"
        (fun _ => AttemptOutcome.response 200 100
          [{ size := 5, time := 0, writeFails := 2 }, { size := 5, time := 1, writeFails := 3 }])
        (initDlState 0 (-1000))).2.2 = Except.error DlError.writeError :=
  ⟨c5_chunk_write_retry.1 7 2 (by decide),
   c5_chunk_write_retry.2.2 "u"
    (fun _ => AttemptOutcome.response 200 100
      [{ size := 5, time := 0, writeFails := 2 }, { size := 5, time := 1, writeFails := 3 }])
    (initDlState 0 (-1000)) 100
    [{ size := 5, time := 0, writeFails := 2 }] { size := 5, time := 1, writeFails := 3 } []
    rfl (by norm_num) (by intro c hc; simp only [List.mem_singleton] at hc; simp [hc])
    (by decide) (by decide)⟩

/-! ### C7: archival happens at most once per normalized title -/

lemma log_download_existing (store : List (List Char)) (raw : List Char)
    (h : normalizeTitle raw ∈ store) :
    log_download store raw = ([ArchAct.sendLog], store) := by
  unfold log_download
  by_cases hg : normalizeTitle raw = [] ∨ normalizeTitle raw = "unknown".data
  · rw [if_pos hg]
  · rw [if_neg hg, if_pos (by simpa using h)]

lemma log_download_new (store : List (List Char)) (raw : List Char)
    (hg : ¬ (normalizeTitle raw = [] ∨ normalizeTitle raw = "unknown".data))
    (h : normalizeTitle raw ∉ store) :
    log_download store raw =
      ([ArchAct.sendLog, ArchAct.forward (normalizeTitle raw),
        ArchAct.insertTitle (normalizeTitle raw)], normalizeTitle raw :: store) := by
  unfold log_download
  rw [if_neg hg, if_neg (by simpa using h)]

lemma runDeliveries_forward_bound (t : List Char) :
    ∀ (books : List (List Char)) (store : List (List Char)),
      (t ∈ store → forwardCount (runDeliveries store books).1 t = 0)
      ∧ forwardCount (runDeliveries store books).1 t ≤ 1 := by
  intro books
  induction books with
  | nil => intro store; simp [runDeliveries, forwardCount]
  | cons b bs ih =>
    intro store
    by_cases hg : normalizeTitle b = [] ∨ normalizeTitle b = "unknown".data
    · have hstep : log_download store b = ([ArchAct.sendLog], store) := by
        unfold log_download; rw [if_pos hg]
      simp only [runDeliveries, hstep]
      have hih := ih store
      constructor
      · intro hmem
        simpa [forwardCount, List.count_append, List.count_cons] using hih.1 hmem
      · simpa [forwardCount, List.count_append, List.count_cons] using hih.2
    · by_cases hmem : normalizeTitle b ∈ store
      · have hstep := log_download_existing store b hmem
        simp only [runDeliveries, hstep]
        have hih := ih store
        constructor
        · intro hm
          simpa [forwardCount, List.count_append, List.count_cons] using hih.1 hm
        · simpa [forwardCount, List.count_append, List.count_cons] using hih.2
      · have hstep := log_download_new store b hg hmem
        simp only [runDeliveries, hstep]
        have ihs := ih (normalizeTitle b :: store)
        by_cases ht : t = normalizeTitle b
        · subst ht
          have hrest : forwardCount
              (runDeliveries (normalizeTitle b :: store) bs).1 (normalizeTitle b) = 0 :=
            ihs.1 (List.mem_cons_self _ _)
          constructor
          · intro hm; exact absurd hm hmem
          · simp only [forwardCount] at hrest ⊢
            simp [List.count_append, List.count_cons, hrest]
        · have hne : (ArchAct.forward (normalizeTitle b) == ArchAct.forward t) = false := by
            simp
            exact fun he => ht he.symm
          constructor
          · intro hm
            have hrest := ihs.1 (List.mem_cons_of_mem _ hm)
            simp only [forwardCount] at hrest ⊢
            simp [List.count_append, List.count_cons, hne, hrest]
          · have hrest := ihs.2
            simp only [forwardCount] at hrest ⊢
            simp [List.count_append, List.count_cons, hne, hrest]

/-- C7: a delivery whose normalized title already exists in the title
store performs only the unconditional log mirror — no `insert` call and
no forward to the archival store — and across any sequence of
deliveries, from any initial store, each normalized title is forwarded
to the archival store at most once (zero times if it was already
stored). -/
theorem c7_archival_at_most_once :
    (∀ (store : List (List Char)) (raw : List Char), normalizeTitle raw ∈ store →
      log_download store raw = ([ArchAct.sendLog], store))
    ∧ (∀ (books : List (List Char)) (store : List (List Char)) (t : List Char),
        (t ∈ store → forwardCount (runDeliveries store books).1 t = 0)
        ∧ forwardCount (runDeliveries store books).1 t ≤ 1) := by
  exact ⟨log_download_existing, fun books store t => runDeliveries_forward_bound t books store⟩

/-- Witness for C7: a stored title is only mirrored, and delivering the
same new title twice forwards it once. -/
theorem c7_archival_at_most_once_witness :
    log_download ["dune".data] "Dune ".data = ([ArchAct.sendLog], ["dune".data])
    ∧ forwardCount (runDeliveries ["other".data] ["dune".data, "dune".data]).1 "dune".data ≤ 1 :=
  ⟨c7_archival_at_most_once.1 ["dune".data] "Dune ".data (by decide),
   (c7_archival_at_most_once.2 ["dune".data, "dune".data] ["other".data] "dune".data).2⟩

/-! ### C1: the per-user concurrency gate -/

/-- The inductive invariant of the gate: lock ownership and the critical
phase coincide, and an owner's lock is keyed by its own user. -/
def GateInv (users : Nat → Nat) (s : GateState) : Prop :=
  (∀ u t, s.owner u = some t → s.phase t = Phase.critical ∧ users t = u)
  ∧ (∀ t, s.phase t = Phase.critical → s.owner (users t) = some t)

lemma gateInv_init (users : Nat → Nat) : GateInv users gateInit := by
  constructor
  · intro u t h; simp [gateInit] at h
  · intro t h; simp [gateInit] at h

lemma gateInv_step {users : Nat → Nat} {s s' : GateState}
    (hs : GateInv users s) (hstep : GateStep users s s') : GateInv users s' := by
  obtain ⟨h1, h2⟩ := hs
  cases hstep with
  | select t ht =>
    constructor
    · intro u t' ho
      have hcrit := h1 u t' ho
      have hne : t' ≠ t := fun he => by rw [he, ht] at hcrit; exact absurd hcrit.1 (by simp)
      refine ⟨?_, hcrit.2⟩
      simp only [updF_apply]
      rw [if_neg hne]
      exact hcrit.1
    · intro t' hp
      simp only [updF_apply] at hp
      by_cases hne : t' = t
      · rw [if_pos hne] at hp; exact absurd hp (by decide)
      · rw [if_neg hne] at hp
        exact h2 t' hp
  | acquire t ht hfree =>
    constructor
    · intro u t' ho
      simp only [updF_apply] at ho
      by_cases hu : u = users t
      · rw [if_pos hu] at ho
        injection ho with he
        subst he
        refine ⟨?_, hu.symm⟩
        simp only [updF_apply]
        simp
      · rw [if_neg hu] at ho
        have hcrit := h1 u t' ho
        have hne : t' ≠ t := fun he => by
          rw [he] at hcrit; exact hu hcrit.2.symm
        refine ⟨?_, hcrit.2⟩
        simp only [updF_apply]
        rw [if_neg hne]
        exact hcrit.1
    · intro t' hp
      simp only [updF_apply] at hp ⊢
      by_cases hne : t' = t
      · subst hne
        rw [if_pos rfl]
      · rw [if_neg hne] at hp
        have hown := h2 t' hp
        have hu : users t' ≠ users t := by
          intro he
          rw [he, hfree] at hown
          exact Option.noConfusion hown
        rw [if_neg hu]
        exact hown
  | release t ht =>
    constructor
    · intro u t' ho
      simp only [updF_apply] at ho
      by_cases hu : u = users t
      · rw [if_pos hu] at ho
        exact Option.noConfusion ho
      · rw [if_neg hu] at ho
        have hcrit := h1 u t' ho
        have hne : t' ≠ t := fun he => by
          rw [he] at hcrit; exact hu hcrit.2.symm
        refine ⟨?_, hcrit.2⟩
        simp only [updF_apply]
        rw [if_neg hne]
        exact hcrit.1
    · intro t' hp
      simp only [updF_apply] at hp ⊢
      by_cases hne : t' = t
      · rw [if_pos hne] at hp
        exact absurd hp (by decide)
      · rw [if_neg hne] at hp
        have hown := h2 t' hp
        have hu : users t' ≠ users t := by
          intro he
          rw [he] at hown
          rw [h2 t ht] at hown
          injection hown with he2
          exact hne he2.symm
        rw [if_neg hu]
        exact hown

lemma gateReach_inv {users : Nat → Nat} {s : GateState}
    (h : GateReach users s) : GateInv users s := by
  induction h with
  | init => exact gateInv_init users
  | step _ hstep ih => exact gateInv_step ih hstep

/-- C1: per-user serialization of the download cycle. In every reachable
state, two distinct tasks inside their download/upload/lifecycle cycle
belong to distinct users; no step can bring a second task of the same
user into its cycle while the first still holds that user's lock; and
two tasks of distinct users can both be inside their cycles at once. -/
theorem c1_per_user_lock_serializes :
    (∀ (users : Nat → Nat) (s : GateState) (t1 t2 : Nat),
        GateReach users s → s.phase t1 = Phase.critical → s.phase t2 = Phase.critical →
        t1 ≠ t2 → users t1 ≠ users t2)
    ∧ (∀ (users : Nat → Nat) (s s' : GateState) (t1 t2 : Nat),
        GateReach users s → s.phase t1 = Phase.critical → users t2 = users t1 → t2 ≠ t1 →
        GateStep users s s' → s'.phase t2 ≠ Phase.critical)
    ∧ (∃ s : GateState, GateReach (fun t => t) s
        ∧ s.phase 0 = Phase.critical ∧ s.phase 1 = Phase.critical) := by
  refine ⟨?_, ?_, ?_⟩
  · intro users s t1 t2 hre h1 h2 hne he
    obtain ⟨hi1, hi2⟩ := gateReach_inv hre
    have o1 := hi2 t1 h1
    have o2 := hi2 t2 h2
    rw [he] at o1
    rw [o1] at o2
    cases o2
    exact hne rfl
  · intro users s s' t1 t2 hre h1 hu hne hstep
    obtain ⟨hi1, hi2⟩ := gateReach_inv hre
    have howner : s.owner (users t1) = some t1 := hi2 t1 h1
    have hnotcrit : s.phase t2 ≠ Phase.critical := by
      intro hc
      have := hi2 t2 hc
      rw [hu, howner] at this
      cases this
      exact hne rfl
    cases hstep with
    | select t ht =>
      simp only [updF_apply]
      by_cases he : t2 = t
      · rw [if_pos he]; decide
      · rw [if_neg he]; exact hnotcrit
    | acquire t ht hfree =>
      by_cases he : t2 = t
      · subst he
        rw [hu] at hfree
        rw [howner] at hfree
        exact absurd hfree (by simp)
      · simp only [updF_apply]
        rw [if_neg he]
        exact hnotcrit
    | release t ht =>
      simp only [updF_apply]
      by_cases he : t2 = t
      · rw [if_pos he]; decide
      · rw [if_neg he]; exact hnotcrit
  · refine ⟨_, GateReach.step (GateReach.step (GateReach.step (GateReach.step
      GateReach.init
      (GateStep.select gateInit 0 rfl))
      (GateStep.select _ 1 rfl))
      (GateStep.acquire _ 0 rfl rfl))
      (GateStep.acquire _ 1 rfl rfl), rfl, rfl⟩

/-! ### C9: the destination path is keyed by title and extension,
not by request -/

lemma clean_title_no_dot (t : List Char) : '.' ∉ (clean_title_chars t).take 50 := by
  intro hmem
  have hmem' := List.mem_of_mem_take hmem
  rcases List.mem_map.mp hmem' with ⟨c, _, he⟩
  by_cases h : c.isAlphanum
  · rw [if_pos h] at he
    rw [he] at h
    exact absurd h (by decide)
  · rw [if_neg h] at he
    exact absurd he (by decide)

lemma append_dot_inj : ∀ (a b e1 e2 : List Char),
    '.' ∉ a → '.' ∉ b → a ++ '.' :: e1 = b ++ '.' :: e2 → a = b ∧ e1 = e2 := by
  intro a
  induction a with
  | nil =>
    intro b e1 e2 _ hb he
    cases b with
    | nil => simpa using he
    | cons d bs =>
      simp only [List.nil_append, List.cons_append, List.cons.injEq] at he
      exact absurd (he.1 ▸ List.mem_cons_self d bs) hb
  | cons c as ih =>
    intro b e1 e2 ha hb he
    cases b with
    | nil =>
      simp only [List.cons_append, List.nil_append, List.cons.injEq] at he
      exact absurd (he.1 ▸ List.mem_cons_self c as) ha
    | cons d bs =>
      simp only [List.cons_append, List.cons.injEq] at he
      have hrec := ih bs e1 e2 (fun hm => ha (List.mem_cons_of_mem _ hm))
        (fun hm => hb (List.mem_cons_of_mem _ hm)) he.2
      exact ⟨by rw [he.1, hrec.1], hrec.2⟩

/-- C9 counterexample: two distinct requests — different users selecting
the same record — use the same destination path `downloads/Dune.pdf`, so
the path is not unique per request. -/
theorem c9_counterexample_shared_path :
    ({ userId := 1, title := "Dune".data, ext := "pdf".data } : DlRequest)
      ≠ { userId := 2, title := "Dune".data, ext := "pdf".data }
    ∧ requestPath { userId := 1, title := "Dune".data, ext := "pdf".data }
      = requestPath { userId := 2, title := "Dune".data, ext := "pdf".data } :=
  ⟨by decide, rfl⟩

/-- C9 (amended): the destination path is a function of the selected
record alone — two requests share a path exactly when they agree on the
first 50 characters of the sanitized title and on the extension, so
distinct records in that sense get distinct exclusive paths, while any
two requests for the same record (in particular from two distinct users,
which the per-user gate does not serialize) share one path. -/
theorem c9_amended_path_keyed_by_record (r1 r2 : DlRequest) :
    requestPath r1 = requestPath r2 ↔
      ((clean_title_chars r1.title).take 50 = (clean_title_chars r2.title).take 50
        ∧ r1.ext = r2.ext) := by
  constructor
  · intro he
    unfold requestPath temp_path at he
    rw [List.append_assoc, List.append_assoc] at he
    have he2 := List.append_cancel_left he
    exact append_dot_inj _ _ _ _ (clean_title_no_dot r1.title) (clean_title_no_dot r2.title) he2
  · intro ⟨h1, h2⟩
    unfold requestPath temp_path
    rw [h1, h2]

/-! ### C6: consecutive identical progress texts

The upload callback pushes a rendered text without comparing it to the
previously rendered one (neither of its branches has the download loop's
`message != last_message` check), so it can push the same text twice in
a row; the download loop's check does prevent this, and its forced
large-file branch turns out to be unreachable.
-/

/-- `DistinctFrom last ms`: each message of `ms` differs from the one
pushed just before it (`last` being the text last pushed, if any). -/
def DistinctFrom : Option Msg → List Msg → Prop
  | _, [] => True
  | prev, m :: ms => some m ≠ prev ∧ DistinctFrom (some m) ms

/-- The last of `ms`, or `prev` when `ms` is empty. -/
def afterMsgs (prev : Option Msg) (ms : List Msg) : Option Msg :=
  ms.foldl (fun _ m => some m) prev

lemma afterMsgs_append (prev : Option Msg) (xs ys : List Msg) :
    afterMsgs prev (xs ++ ys) = afterMsgs (afterMsgs prev xs) ys := by
  simp [afterMsgs, List.foldl_append]

lemma distinctFrom_append {xs ys : List Msg} :
    ∀ prev, DistinctFrom prev xs → DistinctFrom (afterMsgs prev xs) ys →
      DistinctFrom prev (xs ++ ys) := by
  induction xs with
  | nil => intro prev _ hy; exact hy
  | cons m xs ih =>
    intro prev hx hy
    exact ⟨hx.1, ih (some m) hx.2 hy⟩

lemma distinctFrom_chain : ∀ (ms : List Msg) (prev : Option Msg),
    DistinctFrom prev ms → List.Chain' (fun a b => a ≠ b) ms := by
  intro ms
  induction ms with
  | nil => intro prev _; exact List.chain'_nil
  | cons m ms ih =>
    intro prev h
    cases ms with
    | nil => exact List.chain'_singleton m
    | cons m2 ms' =>
      rw [List.chain'_cons]
      refine ⟨?_, ih (some m) h.2⟩
      intro he
      exact h.2.1 (by rw [he])

lemma edits_append (a b : List Ev) : edits (a ++ b) = edits a ++ edits b := by
  simp [edits, List.filterMap_append]

lemma edits_writeChunkGo (size k : Nat) :
    ∀ l : List Nat, edits (writeChunkGo size k l).1 = [] := by
  intro l
  induction l with
  | nil => rfl
  | cons a rest ih =>
    by_cases h : k ≤ a
    · simp [writeChunkGo, h, edits]
    · by_cases hr : rest.isEmpty
      · simp [writeChunkGo, h, hr, edits]
      · simp only [writeChunkGo, h, hr, if_neg, if_false]
        simp only [edits, List.filterMap_cons] at ih ⊢
        exact ih

lemma edits_writeChunk (size k : Nat) : edits (writeChunk size k).1 = [] :=
  edits_writeChunkGo size k [0, 1, 2]

lemma progressStep_distinct (total : Option Nat) (st : DlState) (t : Int) :
    DistinctFrom st.lastMessage (edits (progressStep total st t).1)
    ∧ (progressStep total st t).2.lastMessage
      = afterMsgs st.lastMessage (edits (progressStep total st t).1) := by
  cases total with
  | none => exact ⟨trivial, rfl⟩
  | some n =>
    simp only [progressStep]
    split_ifs with h1 h2 h3
    · simp only [edits, List.filterMap_cons, List.filterMap_nil]
      exact ⟨⟨h2, trivial⟩, rfl⟩
    · exact ⟨trivial, rfl⟩
    · exfalso
      push_neg at h1
      have hgt := h3.2
      have hle := h1.2
      omega
    · exact ⟨trivial, rfl⟩

lemma processChunks_distinct (total : Option Nat) :
    ∀ (cs : List Chunk) (st : DlState),
      DistinctFrom st.lastMessage (edits (processChunks total st cs).1)
      ∧ (processChunks total st cs).2.1.lastMessage
        = afterMsgs st.lastMessage (edits (processChunks total st cs).1) := by
  intro cs
  induction cs with
  | nil => intro st; exact ⟨trivial, rfl⟩
  | cons c cs ih =>
    intro st
    by_cases hsz : c.size = 0
    · simp only [processChunks, hsz, if_pos]
      exact ih st
    · rcases hw : writeChunk c.size c.writeFails with ⟨wevs, ok⟩
      have hwe : edits wevs = [] := by
        have := edits_writeChunk c.size c.writeFails
        rw [hw] at this
        exact this
      cases ok with
      | false =>
        simp only [processChunks, hsz, if_neg, hw, if_false, Bool.false_eq_true]
        rw [hwe]
        exact ⟨trivial, rfl⟩
      | true =>
        have hp := progressStep_distinct total { st with downloaded := st.downloaded + c.size }
          c.time
        rcases hps : progressStep total { st with downloaded := st.downloaded + c.size }
            c.time with ⟨pevs, st2⟩
        rw [hps] at hp
        simp only at hp
        have hrec := ih st2
        rcases hpc : processChunks total st2 cs with ⟨evs, st3, success⟩
        rw [hpc] at hrec
        simp only at hrec
        simp only [processChunks, hsz, if_neg, hw, hps, hpc, if_false, if_true]
        rw [edits_append, edits_append, hwe, List.nil_append]
        constructor
        · exact distinctFrom_append st.lastMessage hp.1 (by rw [← hp.2]; exact hrec.1)
        · rw [afterMsgs_append, ← hp.2, hrec.2]

lemma runAttempt_distinct (url : String) (st : DlState) (out : AttemptOutcome)
    (hm : st.lastMessage = none) :
    DistinctFrom st.lastMessage (edits (runAttempt url st out).1) := by
  cases out with
  | transportError => exact trivial
  | response status cl chunks =>
    simp only [runAttempt]
    by_cases hs : status ≠ 200
    · rw [if_pos hs]
      exact trivial
    · rw [if_neg hs]
      by_cases hbig : cl > 50 * 1024 * 1024
      · rw [if_pos hbig]
        simp only [edits, List.filterMap_cons, List.filterMap_nil]
        rw [hm]
        exact ⟨by simp, trivial⟩
      · rw [if_neg hbig]
        have hp := processChunks_distinct (if cl = 0 then none else some cl) chunks
          { st with downloaded := 0 }
        rcases hpc : processChunks (if cl = 0 then none else some cl)
            { st with downloaded := 0 } chunks with ⟨evs, st', ok⟩
        rw [hpc] at hp
        simp only at hp
        exact hp.1

lemma runAttempt_response_not_transport (url : String) (st : DlState)
    (status cl : Nat) (chunks : List Chunk) :
    (runAttempt url st (AttemptOutcome.response status cl chunks)).2.2
      ≠ Except.error DlError.transport := by
  simp only [runAttempt]
  by_cases hs : status ≠ 200
  · rw [if_pos hs]
    simp
  · rw [if_neg hs]
    by_cases hbig : cl > 50 * 1024 * 1024
    · rw [if_pos hbig]
      simp
    · rw [if_neg hbig]
      rcases hpc : processChunks (if cl = 0 then none else some cl)
          { st with downloaded := 0 } chunks with ⟨evs, st', ok⟩
      cases ok <;> simp

lemma runDownloadGo_cons_transport (url : String) (f : Nat → AttemptOutcome) (st : DlState)
    (i j : Nat) (rest' : List Nat) (h : f i = AttemptOutcome.transportError) :
    (runDownloadGo url f st (i :: j :: rest')).1
      = Ev.sleep 5 :: (runDownloadGo url f st (j :: rest')).1 := by
  conv_lhs => rw [runDownloadGo]
  rw [h]
  rcases hr : runDownloadGo url f st (j :: rest') with ⟨evs2, st2, r⟩
  simp [runAttempt, hr]

lemma runDownloadGo_distinct (url : String) (f : Nat → AttemptOutcome) :
    ∀ (idxs : List Nat) (st : DlState), st.lastMessage = none →
      DistinctFrom none (edits (runDownloadGo url f st idxs).1) := by
  intro idxs
  induction idxs with
  | nil => intro st _; exact trivial
  | cons i rest ih =>
    intro st hm
    cases hout : f i with
    | transportError =>
      cases rest with
      | nil =>
        simp only [runDownloadGo, hout, runAttempt, List.isEmpty_nil, if_true]
        exact trivial
      | cons j rest' =>
        rw [runDownloadGo_cons_transport url f st i j rest' hout]
        rw [show edits (Ev.sleep 5 :: (runDownloadGo url f st (j :: rest')).1)
            = edits (runDownloadGo url f st (j :: rest')).1 from by simp [edits]]
        exact ih st hm
    | response status cl chunks =>
      have hnt := runAttempt_response_not_transport url st status cl chunks
      have hd := runAttempt_distinct url st (AttemptOutcome.response status cl chunks) hm
      rw [hm] at hd
      rcases hra : runAttempt url st (AttemptOutcome.response status cl chunks)
        with ⟨evs, st', res⟩
      rw [hra] at hd hnt
      simp only at hd hnt
      cases res with
      | ok v =>
        simp only [runDownloadGo, hout, hra]
        exact hd
      | error e =>
        cases e with
        | transport => exact absurd rfl hnt
        | fileTooLarge =>
          simp only [runDownloadGo, hout, hra]
          exact hd
        | httpStatus code =>
          simp only [runDownloadGo, hout, hra]
          exact hd
        | writeError =>
          simp only [runDownloadGo, hout, hra]
          exact hd

/-- C6 counterexample: the upload progress callback, for a 1000-byte
upload whose second invocation arrives 3 seconds after the first with
only one more byte sent, pushes the text `"📤 Uploading... (50%)"`
twice in a row: the rendered text is pushed even though it equals the
previously rendered one, so the claim fails for the upload branches. -/
theorem c6_counterexample_upload_pushes_duplicate :
    edits (uploadRun 1000 (initUpState 0 (-100)) [(500, 0), (501, 3)]).1
      = [Msg.uploading 50, Msg.uploading 50]
    ∧ ¬ List.Chain' (fun a b => a ≠ b)
        (edits (uploadRun 1000 (initUpState 0 (-100)) [(500, 0), (501, 3)]).1) := by
  constructor
  · decide
  · intro hch
    have he : edits (uploadRun 1000 (initUpState 0 (-100)) [(500, 0), (501, 3)]).1
        = [Msg.uploading 50, Msg.uploading 50] := by decide
    rw [he, List.chain'_cons] at hch
    exact hch.1 rfl

/-- C6 (amended): the download transfer never pushes two consecutive
identical message texts — its percent branch skips texts equal to the
last rendered one and its forced large-file branch is unreachable — but
the upload callback lacks that skip in both of its branches and may push
the same text twice when the elapsed-time trigger fires without a
percent or MB change (the sink then rejects the duplicate edit and the
error is swallowed). -/
theorem c6_amended_download_never_repeats (url : String) (f : Nat → AttemptOutcome)
    (st : DlState) (hm : st.lastMessage = none) :
    List.Chain' (fun a b => a ≠ b) (edits (download_libgen_file url f st).1) :=
  distinctFrom_chain _ none (runDownloadGo_distinct url f [0, 1, 2] st hm)

/-- Witness for C6's amended theorem at a concrete two-chunk download. -/
theorem c6_amended_download_never_repeats_witness :
    List.Chain' (fun a b => a ≠ b)
      (edits (download_libgen_file "u"
        (fun _ => AttemptOutcome.response 200 100
          [{ size := 50, time := 0, writeFails := 0 },
           { size := 50, time := 1, writeFails := 0 }])
        (initDlState 0 (-100))).1) :=
  c6_amended_download_never_repeats "u"
    (fun _ => AttemptOutcome.response 200 100
      [{ size := 50, time := 0, writeFails := 0 },
       { size := 50, time := 1, writeFails := 0 }])
    (initDlState 0 (-100)) rfl

/-- Witness for C1: in the concrete reachable state where tasks 0 and 1
(of users 0 and 1) both hold their locks, the theorem yields that the
two users are distinct. -/
theorem c1_per_user_lock_serializes_witness : (fun t : Nat => t) 0 ≠ (fun t : Nat => t) 1 :=
  c1_per_user_lock_serializes.1 (fun t => t)
    ⟨updF (updF (updF (updF gateInit.phase 0 Phase.waiting) 1 Phase.waiting) 0 Phase.critical)
        1 Phase.critical,
      updF (updF gateInit.owner 0 (some 0)) 1 (some 1)⟩ 0 1
    (GateReach.step (GateReach.step (GateReach.step (GateReach.step
      GateReach.init
      (GateStep.select gateInit 0 rfl))
      (GateStep.select _ 1 rfl))
      (GateStep.acquire _ 0 rfl rfl))
      (GateStep.acquire _ 1 rfl rfl))
    rfl rfl (by decide)

end Library
